import Mathlib

/-!
Shallow embedding of the `with-defer` library (src/src/cleanup.ts and
src/src/error.ts) and proofs of its specification claims.

Failure values thrown by user code may be of arbitrary type, so the
embedding is parametric in a type `ε` of failure payloads.  A cleanup
callback is modelled by the observable effect it produces when invoked
(its `tag`), the outcome of invoking it (success, or a thrown failure
value), and — for the timing model of the sequencing guarantee — the
number of time units the awaited call takes to settle.
-/

namespace WithDefer

instance {ε α : Type} [DecidableEq ε] [DecidableEq α] : DecidableEq (Except ε α)
  | Except.ok a, Except.ok b =>
      decidable_of_iff (a = b) ⟨fun h => by rw [h], fun h => by cases h; rfl⟩
  | Except.ok _, Except.error _ => isFalse (fun h => by cases h)
  | Except.error _, Except.ok _ => isFalse (fun h => by cases h)
  | Except.error a, Except.error b =>
      decidable_of_iff (a = b) ⟨fun h => by rw [h], fun h => by cases h; rfl⟩

/-- Embeds the `CleanupCallback` functions of cleanup.ts: a niladic callable
whose invocation produces an observable effect `tag`, either succeeds or
throws a failure value (`result`), and takes `duration` time units to
settle when awaited. -/
structure CleanupCallback (ε τ : Type) where
  tag : τ
  result : Except ε Unit
  duration : Nat
deriving DecidableEq, Repr

/-- Embeds the host `Error` class: the part of it the library relies on is
the `message` installed by its constructor. -/
structure Error where
  message : String
deriving DecidableEq, Repr

/-- Embeds the `AggregateError` class of error.ts, which `extends Error`:
it adds the materialized `errors` sequence and the fixed class field
`name = "AggregateError"`. -/
structure AggregateError (ε : Type) extends Error where
  errors : List ε
  name : String
deriving DecidableEq, Repr

/-- Embeds the `AggregateError` constructor: `super(message)` installs the
message on the `Error` part, `this.errors = [...errors]` materializes the
input failures in order, and the class field sets `name`.  It is a total
function: construction never fails, for any failure list including the
empty one. -/
def AggregateError.make {ε : Type} (errors : List ε) (message : String) :
    AggregateError ε :=
  ⟨⟨message⟩, errors, "AggregateError"⟩

/-- Embeds calling the `AggregateError` constructor without the optional
`message` argument, whose default value in error.ts is the empty string. -/
def AggregateError.makeDefault {ε : Type} (errors : List ε) : AggregateError ε :=
  AggregateError.make errors ""

/-- A failure escaping `runWithDefer` is either the operation's own thrown
value, propagated unchanged, or an `AggregateError` built from cleanup
failures. -/
inductive Failure (ε : Type) where
  | passthrough (err : ε)
  | aggregate (agg : AggregateError ε)
deriving DecidableEq, Repr

/-- Embeds the caller-supplied handler `func` passed to `runWithDefer`:
`registered` lists the callbacks it passes to `defer`, in the order of the
calls; `outcome` is the value it returns or the failure it throws;
`duration` is the time until its returned promise settles. -/
structure Operation (ε ρ τ : Type) where
  registered : List (CleanupCallback ε τ)
  outcome : Except ε ρ
  duration : Nat

/-- Embeds the `defer` function of cleanup.ts:
`onCleanup.unshift(deferredFn)` prepends the callback to the front of the
invocation-local list.  It is total (never fails) and its only effect is
the updated list (`void` return). -/
def defer {ε τ : Type} (deferredFn : CleanupCallback ε τ)
    (onCleanup : List (CleanupCallback ε τ)) : List (CleanupCallback ε τ) :=
  deferredFn :: onCleanup

/-- The registration phase of `runWithDefer`: starting from the empty
`onCleanup` list, each call the operation makes to `defer` prepends its
callback. -/
def registerAll {ε τ : Type} (calls : List (CleanupCallback ε τ)) :
    List (CleanupCallback ε τ) :=
  List.foldl (fun onCleanup c => defer c onCleanup) [] calls

/-- Embeds the cleanup loop in the `finally` block of `runWithDefer`:
`for (const onCleanupFn of onCleanup)` awaits each callback in list order,
catching each failure locally and pushing it onto `errors` in encounter
order.  Returns the trace of executed callbacks' tags in execution order,
and the collected `errors` list. -/
def cleanupLoop {ε τ : Type} : List (CleanupCallback ε τ) → List τ × List ε
  | [] => ([], [])
  | fn :: rest =>
    let next := cleanupLoop rest
    match fn.result with
    | Except.ok _ => (fn.tag :: next.1, next.2)
    | Except.error err => (fn.tag :: next.1, err :: next.2)

/-- The fixed message of the `AggregateError` thrown by `runWithDefer`
(cleanup.ts line 94). -/
def cleanupMessage : String :=
  "One or more exceptions caught while executing deferred clean-up functions"

/-- The failure value, if any, a callback throws when invoked. -/
def thrownError {ε τ : Type} (fn : CleanupCallback ε τ) : Option ε :=
  match fn.result with
  | Except.ok _ => none
  | Except.error err => some err

/-- Embeds `runWithDefer` of cleanup.ts: run the operation with the
invocation-local list built by `defer`, then in the `finally` block run
the cleanup loop over that list; if the collected `errors` list is
non-empty, throw a fresh `AggregateError` over it (superseding the
operation's own outcome), otherwise let the operation's outcome stand.
Returns the final outcome paired with the execution trace of the cleanup
callbacks. -/
def runWithDefer {ε ρ τ : Type} (func : Operation ε ρ τ) :
    Except (Failure ε) ρ × List τ :=
  ((if ((cleanupLoop (registerAll func.registered)).2).length ≠ 0 then
      Except.error (Failure.aggregate
        (AggregateError.make ((cleanupLoop (registerAll func.registered)).2)
          cleanupMessage))
    else
      match func.outcome with
      | Except.ok value => Except.ok value
      | Except.error err => Except.error (Failure.passthrough err)),
   (cleanupLoop (registerAll func.registered)).1)

/-- Timing model of the cleanup loop: each `await onCleanupFn()` starts
when the previous one has settled, so starting at time `now` the list of
callbacks yields one `(start, finish)` interval per callback, each
starting exactly when its predecessor finishes. -/
def scheduleFrom {ε τ : Type} (now : Nat) :
    List (CleanupCallback ε τ) → List (Nat × Nat)
  | [] => []
  | fn :: rest => (now, now + fn.duration) :: scheduleFrom (now + fn.duration) rest

/-- Total time units the cleanup loop takes. -/
def totalDuration {ε τ : Type} (fns : List (CleanupCallback ε τ)) : Nat :=
  (fns.map CleanupCallback.duration).sum

/-- Intervals during which the cleanup callbacks of an invocation run:
cleanup begins only once the operation's promise has settled, at time
`func.duration`. -/
def cleanupSchedule {ε ρ τ : Type} (func : Operation ε ρ τ) : List (Nat × Nat) :=
  scheduleFrom func.duration (registerAll func.registered)

/-- Time at which the promise returned by `runWithDefer` settles: after
the operation and every cleanup callback have settled. -/
def settleTime {ε ρ τ : Type} (func : Operation ε ρ τ) : Nat :=
  func.duration + totalDuration (registerAll func.registered)

/- ### Helper lemmas -/

theorem registerAll_eq_reverse {ε τ : Type} (calls : List (CleanupCallback ε τ)) :
    registerAll calls = calls.reverse := by
  have h : ∀ acc : List (CleanupCallback ε τ),
      List.foldl (fun onCleanup c => defer c onCleanup) acc calls =
        calls.reverse ++ acc := by
    induction calls with
    | nil => intro acc; simp
    | cons c rest ih => intro acc; simp [defer, ih]
  simpa [registerAll] using h []

theorem cleanupLoop_fst {ε τ : Type} (fns : List (CleanupCallback ε τ)) :
    (cleanupLoop fns).1 = fns.map CleanupCallback.tag := by
  induction fns with
  | nil => rfl
  | cons fn rest ih =>
    cases hr : fn.result <;> simp [cleanupLoop, hr, ih]

theorem cleanupLoop_snd {ε τ : Type} (fns : List (CleanupCallback ε τ)) :
    (cleanupLoop fns).2 = fns.filterMap thrownError := by
  induction fns with
  | nil => rfl
  | cons fn rest ih =>
    cases hr : fn.result <;> simp [cleanupLoop, thrownError, hr, ih]

theorem scheduleFrom_mem_bounds {ε τ : Type} (fns : List (CleanupCallback ε τ)) :
    ∀ now : Nat, ∀ p ∈ scheduleFrom now fns,
      now ≤ p.1 ∧ p.1 ≤ p.2 ∧ p.2 ≤ now + totalDuration fns := by
  induction fns with
  | nil => intro now p hp; simp [scheduleFrom] at hp
  | cons fn rest ih =>
    intro now p hp
    simp only [scheduleFrom, List.mem_cons] at hp
    rcases hp with hp | hp
    · subst hp
      refine ⟨Nat.le_refl _, Nat.le_add_right _ _, ?_⟩
      have hd : totalDuration (fn :: rest) = fn.duration + totalDuration rest := by
        simp [totalDuration]
      omega
    · have hb := ih (now + fn.duration) p hp
      have hd : totalDuration (fn :: rest) = fn.duration + totalDuration rest := by
        simp [totalDuration]
      omega

theorem scheduleFrom_pairwise {ε τ : Type} (fns : List (CleanupCallback ε τ)) :
    ∀ now : Nat,
      List.Pairwise (fun a b : Nat × Nat => a.2 ≤ b.1) (scheduleFrom now fns) := by
  induction fns with
  | nil => intro now; simp [scheduleFrom]
  | cons fn rest ih =>
    intro now
    simp only [scheduleFrom]
    refine List.Pairwise.cons ?_ (ih (now + fn.duration))
    intro p hp
    exact (scheduleFrom_mem_bounds rest (now + fn.duration) p hp).1

/- ### Concrete operations used by the witnesses -/

/-- Three callbacks registered in order, failing with 1, 2, 3; the
operation itself also fails. -/
def opC1 : Operation Nat Nat Nat :=
  ⟨[⟨1, Except.error 1, 0⟩, ⟨2, Except.error 2, 0⟩, ⟨3, Except.error 3, 0⟩],
   Except.error 99, 0⟩

/-- One succeeding callback; the operation fails with 7. -/
def opC3 : Operation Nat Nat Nat :=
  ⟨[⟨1, Except.ok (), 0⟩], Except.error 7, 0⟩

/-- Two succeeding callbacks; the operation returns 42. -/
def opC4 : Operation Nat Nat Nat :=
  ⟨[⟨1, Except.ok (), 0⟩, ⟨2, Except.ok (), 0⟩], Except.ok 42, 0⟩

/-- Two callbacks with nonzero durations, after an operation that takes 5
time units. -/
def opC7 : Operation Nat Nat Nat :=
  ⟨[⟨1, Except.ok (), 2⟩, ⟨2, Except.ok (), 3⟩], Except.ok 0, 5⟩

/-- One callback failing with 5; the operation succeeds. -/
def opC9 : Operation Nat Nat Nat :=
  ⟨[⟨1, Except.error 5, 0⟩], Except.ok 0, 0⟩

/- ### Claim theorems -/

/-- C1: whenever at least one registered cleanup action fails, the outcome
of `runWithDefer` is a failure carrying a newly constructed
`AggregateError` whose `errors` sequence is exactly the cleanup failures
in the order the failing actions were executed (reverse-registration
order).  No assumption is made about `func.outcome`, so this holds even
when the operation itself failed, and the aggregate contains only the
cleanup failures — the operation's original failure is not included. -/
theorem runWithDefer_aggregate {ε ρ τ : Type} (func : Operation ε ρ τ)
    (h : func.registered.reverse.filterMap thrownError ≠ []) :
    (runWithDefer func).1 =
      Except.error (Failure.aggregate
        (AggregateError.make (func.registered.reverse.filterMap thrownError)
          cleanupMessage)) := by
  have he : (cleanupLoop (registerAll func.registered)).2 =
      func.registered.reverse.filterMap thrownError := by
    rw [cleanupLoop_snd, registerAll_eq_reverse]
  simp only [runWithDefer, he]
  rw [if_pos]
  simpa [List.length_eq_zero] using h

/-- Witness for C1: the three failing callbacks of `opC1` produce an
AggregateError over `[3, 2, 1]` even though the operation failed with
99. -/
theorem runWithDefer_aggregate_witness :
    opC1.registered.reverse.filterMap thrownError ≠ [] ∧
    (runWithDefer opC1).1 =
      Except.error (Failure.aggregate
        (AggregateError.make (opC1.registered.reverse.filterMap thrownError)
          cleanupMessage)) :=
  ⟨by decide, runWithDefer_aggregate opC1 (by decide)⟩

/-- C2: `defer` prepends each newly registered callback to the front of
the list, the list built by N registrations is the reverse of the
registration order, and the execution trace of `runWithDefer` is the
registered tags in reverse-registration order aN, …, a1. -/
theorem runWithDefer_reverse_order {ε ρ τ : Type} (func : Operation ε ρ τ) :
    (∀ (fn : CleanupCallback ε τ) (onCleanup : List (CleanupCallback ε τ)),
        defer fn onCleanup = fn :: onCleanup) ∧
    registerAll func.registered = func.registered.reverse ∧
    (runWithDefer func).2 = (func.registered.map CleanupCallback.tag).reverse := by
  refine ⟨fun fn onCleanup => rfl, registerAll_eq_reverse _, ?_⟩
  simp only [runWithDefer]
  rw [cleanupLoop_fst, registerAll_eq_reverse, List.map_reverse]

/-- C3: when the operation fails and every registered cleanup action
succeeds (including the case of zero registrations), the outcome of
`runWithDefer` is exactly the operation's original failure value,
propagated unchanged. -/
theorem runWithDefer_passthrough {ε ρ τ : Type} (func : Operation ε ρ τ) (err : ε)
    (hout : func.outcome = Except.error err)
    (hok : ∀ fn ∈ func.registered, fn.result = Except.ok ()) :
    (runWithDefer func).1 = Except.error (Failure.passthrough err) := by
  have he : (cleanupLoop (registerAll func.registered)).2 = [] := by
    rw [cleanupLoop_snd, registerAll_eq_reverse]
    refine List.filterMap_eq_nil_iff.2 (fun fn hfn => ?_)
    have hr := hok fn (List.mem_reverse.1 hfn)
    simp [thrownError, hr]
  simp [runWithDefer, he, hout]

/-- Witness for C3: the operation of `opC3` fails with 7 and its single
cleanup action succeeds, so 7 passes through unchanged. -/
theorem runWithDefer_passthrough_witness :
    opC3.outcome = Except.error 7 ∧
    (runWithDefer opC3).1 = Except.error (Failure.passthrough 7) :=
  ⟨by decide, runWithDefer_passthrough opC3 7 (by decide) (by decide)⟩

/-- C4: when the operation produces a result value and no registered
cleanup action fails, the outcome of `runWithDefer` is exactly that
result value, unchanged. -/
theorem runWithDefer_value {ε ρ τ : Type} (func : Operation ε ρ τ) (value : ρ)
    (hout : func.outcome = Except.ok value)
    (hok : ∀ fn ∈ func.registered, fn.result = Except.ok ()) :
    (runWithDefer func).1 = Except.ok value := by
  have he : (cleanupLoop (registerAll func.registered)).2 = [] := by
    rw [cleanupLoop_snd, registerAll_eq_reverse]
    refine List.filterMap_eq_nil_iff.2 (fun fn hfn => ?_)
    have hr := hok fn (List.mem_reverse.1 hfn)
    simp [thrownError, hr]
  simp [runWithDefer, he, hout]

/-- Witness for C4: the operation of `opC4` returns 42 with two
succeeding cleanup actions, and `runWithDefer` returns exactly 42. -/
theorem runWithDefer_value_witness :
    opC4.outcome = Except.ok 42 ∧ (runWithDefer opC4).1 = Except.ok 42 :=
  ⟨by decide, runWithDefer_value opC4 42 (by decide) (by decide)⟩

/-- C5: a failing cleanup action never prevents the remaining actions
from running: with no assumption on which actions fail, the execution
trace covers every registered action (in reverse-registration order, one
execution per registration), and the failures are collected in encounter
order without aborting the loop. -/
theorem cleanup_never_aborts {ε ρ τ : Type} (func : Operation ε ρ τ) :
    (runWithDefer func).2 = func.registered.reverse.map CleanupCallback.tag ∧
    ((runWithDefer func).2).length = func.registered.length ∧
    (cleanupLoop (registerAll func.registered)).2 =
      func.registered.reverse.filterMap thrownError := by
  have ht : (runWithDefer func).2 =
      func.registered.reverse.map CleanupCallback.tag := by
    simp only [runWithDefer]
    rw [cleanupLoop_fst, registerAll_eq_reverse]
  refine ⟨ht, ?_, ?_⟩
  · rw [ht]; simp
  · rw [cleanupLoop_snd, registerAll_eq_reverse]

/-- C6: constructing an `AggregateError` is a total operation yielding an
immutable value whose `errors` field is the materialized input sequence
in order, whose `message` is exactly the string passed in (the empty
string when the optional argument is omitted), and whose `name`
discriminator is "AggregateError" for every input, the empty sequence
included. -/
theorem AggregateError_make_spec {ε : Type} (errors : List ε) (message : String) :
    (AggregateError.make errors message).errors = errors ∧
    (AggregateError.make errors message).message = message ∧
    (AggregateError.make errors message).name = "AggregateError" ∧
    (AggregateError.makeDefault errors).message = "" ∧
    (AggregateError.makeDefault errors).name = "AggregateError" :=
  ⟨rfl, rfl, rfl, rfl, rfl⟩

/-- C7: cleanup actions run strictly sequentially: their scheduled
intervals are pairwise non-overlapping (each action finishes before any
later-executed one starts), every interval starts only after the
operation body has settled, and the promise returned by `runWithDefer`
settles no earlier than the end of every cleanup interval. -/
theorem cleanup_sequential {ε ρ τ : Type} (func : Operation ε ρ τ) :
    List.Pairwise (fun a b : Nat × Nat => a.2 ≤ b.1) (cleanupSchedule func) ∧
    (∀ p ∈ cleanupSchedule func, func.duration ≤ p.1 ∧ p.2 ≤ settleTime func) := by
  refine ⟨scheduleFrom_pairwise _ _, fun p hp => ?_⟩
  have hb := scheduleFrom_mem_bounds (registerAll func.registered) func.duration p hp
  exact ⟨hb.1, hb.2.2⟩

/-- Witness for C7: in `opC7` the first-executed cleanup interval is
(5, 8); it starts only after the operation settles at 5 and ends before
the engine settles at 10. -/
theorem cleanup_sequential_witness :
    List.Pairwise (fun a b : Nat × Nat => a.2 ≤ b.1) (cleanupSchedule opC7) ∧
    (opC7.duration ≤ (5, 8).1 ∧ (5, 8).2 ≤ settleTime opC7) :=
  ⟨(cleanup_sequential opC7).1, (cleanup_sequential opC7).2 (5, 8) (by decide)⟩

/-- C8: `AggregateError` extends `Error`: every constructed instance
carries an `Error` part whose message is the one installed by the
superclass constructor `super(message)`. -/
theorem AggregateError_extends_Error {ε : Type} (errors : List ε) (message : String) :
    (AggregateError.make errors message).toError = Error.mk message :=
  rfl

/-- C9: whenever `runWithDefer` fails with an AggregateError, that
error's message is exactly the fixed string of cleanup.ts line 94. -/
theorem runWithDefer_aggregate_message {ε ρ τ : Type} (func : Operation ε ρ τ)
    (agg : AggregateError ε)
    (h : (runWithDefer func).1 = Except.error (Failure.aggregate agg)) :
    agg.message =
      "One or more exceptions caught while executing deferred clean-up functions" := by
  simp only [runWithDefer] at h
  split at h
  · injection h with h1
    injection h1 with h2
    rw [← h2]
    rfl
  · split at h <;> simp at h

/-- Witness for C9: `opC9` fails with an AggregateError over `[5]` whose
message is the fixed string. -/
theorem runWithDefer_aggregate_message_witness :
    (AggregateError.make [5] cleanupMessage).message =
      "One or more exceptions caught while executing deferred clean-up functions" :=
  runWithDefer_aggregate_message opC9 (AggregateError.make [5] cleanupMessage) rfl

/-- C10: the `defer` register function is total (never fails, and its
only effect is the updated list — it returns no value), and it performs
no deduplication: a callback registered k times appears k times in the
built list and is executed once per registration, so the trace length
equals the number of registrations. -/
theorem register_no_dedup {ε ρ τ : Type} [DecidableEq ε] [DecidableEq τ]
    (func : Operation ε ρ τ) (fn : CleanupCallback ε τ) :
    (∀ onCleanup : List (CleanupCallback ε τ), defer fn onCleanup = fn :: onCleanup) ∧
    (registerAll func.registered).count fn = func.registered.count fn ∧
    ((runWithDefer func).2).length = func.registered.length := by
  refine ⟨fun onCleanup => rfl, ?_, ?_⟩
  · rw [registerAll_eq_reverse, List.count_reverse]
  · simp only [runWithDefer]
    rw [cleanupLoop_fst, registerAll_eq_reverse]
    simp

end WithDefer
